import Mathlib

/-!
Verification development for the CV-processing pipeline implemented in
`.github/scripts/process_cv.py`.

The script is embedded shallowly:

* Strings are modelled as `List Char`.
* The character classes of Python's `re` module (`\s`, `\w`) are modelled on
  their ASCII fragment by the decidable predicates `isPySpace` and `isPyWord`.
* `clean_text` (lines 113-124) is `collapseWs` (the substitution
  `re.sub(r'\s+', ' ', text)`), then a `filter` with the character whitelist of
  `re.sub(r'[^\w\s\-\.,;:()\[\]]+', '', text)`, then `stripWs` (`text.strip()`).
* The three PDF backends (pdfplumber, PyPDF2, pdftotext), the DOCX and DOC
  parsers, the HTTP download, the timestamp service and the callback POST are
  external collaborators; their observable behaviour is passed in as data
  (`PdfBackendRun`, the `World` structure) and the control flow of
  `extract_text_from_pdf` (lines 33-75), `extract_text_from_docx` (77-96),
  `extract_text_from_doc` (98-111) and `process_file` (126-230) is reproduced
  over it, including the mutable `text` accumulator of the PDF routine and the
  temp-file bookkeeping of `process_file`.
-/

/-- ASCII fragment of Python's regex class `\s` (and of `str.strip()`):
space, tab, newline, carriage return, vertical tab, form feed. -/
def isPySpace (c : Char) : Bool :=
  c == ' ' || c == '\t' || c == '\n' || c == '\r' || c == '\x0b' || c == '\x0c'

/-- ASCII fragment of Python's regex class `\w`: letters, digits, underscore. -/
def isPyWord (c : Char) : Bool :=
  c.isAlpha || c.isDigit || c == '_'

/-- The whitelist of `re.sub(r'[^\w\s\-\.,;:()\[\]]+', '', text)` in
`clean_text`: word characters, whitespace, and the listed punctuation. -/
def keepChar (c : Char) : Bool :=
  isPyWord c || isPySpace c || c == '-' || c == '.' || c == ',' || c == ';' ||
    c == ':' || c == '(' || c == ')' || c == '[' || c == ']'

/-- Worker for `collapseWs`; the flag records whether the previously read
character was whitespace (i.e. whether we are inside a whitespace run whose
single replacement space has already been emitted). -/
def collapseGo (prevWs : Bool) : List Char → List Char
  | [] => []
  | c :: cs =>
    if isPySpace c then
      if prevWs then collapseGo true cs else ' ' :: collapseGo true cs
    else
      c :: collapseGo false cs

/-- `re.sub(r'\s+', ' ', text)`: every maximal nonempty run of whitespace is
replaced by a single space. -/
def collapseWs (l : List Char) : List Char := collapseGo false l

/-- `text.strip()`: remove leading and trailing whitespace. -/
def stripWs (l : List Char) : List Char :=
  (((l.dropWhile isPySpace).reverse).dropWhile isPySpace).reverse

/-- `clean_text` (lines 113-124): collapse whitespace runs, drop characters
outside the whitelist, trim. -/
def clean_text (l : List Char) : List Char :=
  stripWs ((collapseWs l).filter keepChar)

/-- Observable behaviour of one in-process PDF backend run (pdfplumber or
PyPDF2): the per-page results of `page.extract_text()` yielded before the run
ended (`none` models a `None` return), and whether the run ended by raising an
exception instead of completing normally. -/
structure PdfBackendRun where
  pages : List (Option (List Char))
  raises : Bool
  deriving DecidableEq

/-- The page loop shared by both in-process PDF backends:
`if page_text: text += page_text + "\n"` (Python truthiness: `None` and the
empty string are both skipped). -/
def accumPages (pages : List (Option (List Char))) : List Char :=
  pages.foldl
    (fun acc p =>
      match p with
      | none => acc
      | some t => if t.isEmpty then acc else acc ++ t ++ ['\n'])
    []

/-- `extract_text_from_pdf` (lines 33-75). `b1` is the pdfplumber run, `b2`
the PyPDF2 run; `b3raises`, `b3rc`, `b3out` describe the `pdftotext`
subprocess (exception raised / return code / stdout). The single mutable
`text` accumulator is never reset between method 1 and method 2; method 3
returns `clean_text` of its own stdout only. -/
def extract_text_from_pdf (b1 b2 : PdfBackendRun) (b3raises : Bool)
    (b3rc : Int) (b3out : List Char) : List Char :=
  let t1 := accumPages b1.pages
  if !b1.raises && !(stripWs t1).isEmpty then
    clean_text t1
  else
    let t2 := t1 ++ accumPages b2.pages
    if !b2.raises && !(stripWs t2).isEmpty then
      clean_text t2
    else if !b3raises && b3rc == 0 && !(stripWs b3out).isEmpty then
      clean_text b3out
    else
      []

/-- Raw text assembled by `extract_text_from_docx` before cleaning: every
paragraph followed by a newline, then for every table, row by row, each cell
followed by a space and each row terminated by a newline. -/
def docxRaw (paras : List (List Char))
    (tables : List (List (List (List Char)))) : List Char :=
  tables.foldl
    (fun acc tbl =>
      tbl.foldl
        (fun acc2 row =>
          (row.foldl (fun a cell => a ++ cell ++ [' ']) acc2) ++ ['\n'])
        acc)
    (paras.foldl (fun acc p => acc ++ p ++ ['\n']) [])

/-- `extract_text_from_docx` (lines 77-96): `none` models any exception while
parsing the container (caught, yielding the empty string); otherwise the
document's paragraphs and tables are serialised and cleaned. -/
def extract_text_from_docx
    (doc : Option (List (List Char) × List (List (List (List Char))))) :
    List Char :=
  match doc with
  | none => []
  | some d => clean_text (docxRaw d.1 d.2)

/-- `extract_text_from_doc` (lines 98-111): run `antiword`; on an exception
(e.g. timeout) or a nonzero exit code the result is empty, otherwise
`clean_text` of the captured stdout (with no emptiness check). -/
def extract_text_from_doc (raises : Bool) (rc : Int) (out : List Char) :
    List Char :=
  if !raises && rc == 0 then clean_text out else []

/-- `str(e)` for the download failure raised at line 159. -/
def downloadErrMsg : List Char := "Failed to download file".toList

/-- `str(e)` for the empty-extraction failure raised at line 177. -/
def noTextErrMsg : List Char := "No text could be extracted from the file".toList

/-- Leading part of the message raised at line 174; the resolved extension is
appended (f-string `f"Unsupported file type: {file_extension}"`). -/
def unsupportedErrMsgHead : List Char := "Unsupported file type: ".toList

/-- The result dictionary built by `process_file` (lines 180-204): optional
fields are `none` exactly when the corresponding key is absent. -/
structure ProcResult where
  success : Bool
  application_id : List Char
  error : Option (List Char)
  extracted_text : Option (List Char)
  file_type : Option (List Char)
  text_length : Option Nat
  timestamp : List Char
  deriving DecidableEq

/-- Observable outcome of one `process_file` invocation: the result value
(`none` when an exception escaped `process_file`, i.e. when the failure-branch
timestamp lookup itself raised), the local files still existing after the
`finally` cleanup, and whether the callback POST was attempted / succeeded. -/
structure ProcOutcome where
  result : Option ProcResult
  leftovers : List (List Char)
  callbackAttempted : Bool
  callbackOk : Bool
  deriving DecidableEq

/-- Behaviour of all external collaborators during one invocation. -/
structure World where
  /-- `download_file` returned `True`. -/
  dlOk : Bool
  /-- the download opened (hence created) the file at the download path
  (true whenever `requests.get` succeeded, even if a later chunk failed). -/
  dlOpened : Bool
  b1 : PdfBackendRun
  b2 : PdfBackendRun
  b3raises : Bool
  b3rc : Int
  b3out : List Char
  /-- paragraphs and tables of the DOCX document, `none` if parsing raised. -/
  docx : Option (List (List Char) × List (List (List (List Char))))
  docRaises : Bool
  docRc : Int
  docOut : List Char
  /-- the `worldtimeapi` lookup at line 188 (success branch); `none` = raised. -/
  tsSuccess : Option (List Char)
  /-- `str(e)` of the exception raised when the success-branch lookup fails. -/
  tsSuccessErr : List Char
  /-- the `worldtimeapi` lookup at line 202 (except branch); `none` = raised. -/
  tsFailure : Option (List Char)

/-- Lines 156-174 of `process_file`: raise on a failed download, otherwise
select the extractor by the resolved extension, raising on an unsupported
one. `Except.error` carries `str(e)` of the raised exception. -/
def dispatch (ext : List Char) (w : World) : Except (List Char) (List Char) :=
  if !w.dlOk then
    Except.error downloadErrMsg
  else if ext = ".pdf".toList then
    Except.ok (extract_text_from_pdf w.b1 w.b2 w.b3raises w.b3rc w.b3out)
  else if ext = ".docx".toList then
    Except.ok (extract_text_from_docx w.docx)
  else if ext = ".doc".toList then
    Except.ok (extract_text_from_doc w.docRaises w.docRc w.docOut)
  else
    Except.error (unsupportedErrMsgHead ++ ext)

/-- Lines 176-177: `if not extracted_text.strip(): raise ...`. -/
def checkText : Except (List Char) (List Char) → Except (List Char) (List Char)
  | Except.error m => Except.error m
  | Except.ok t =>
      if (stripWs t).isEmpty then Except.error noTextErrMsg else Except.ok t

/-- Lines 179-204: build the success dictionary (lines 180-190) or, in the
`except` branch, the failure dictionary (lines 196-204); each branch performs
its own timestamp lookup, and if the failure-branch lookup raises the
exception escapes `process_file` (`none`). -/
def buildResult (appId ext : List Char) (w : World) :
    Except (List Char) (List Char) → Option ProcResult
  | Except.ok t =>
      match w.tsSuccess with
      | some ts => some ⟨true, appId, none, some t, some ext, some t.length, ts⟩
      | none =>
          match w.tsFailure with
          | some ts => some ⟨false, appId, some w.tsSuccessErr, none, none, none, ts⟩
          | none => none
  | Except.error m =>
      match w.tsFailure with
      | some ts => some ⟨false, appId, some m, none, none, none, ts⟩
      | none => none

/-- `process_file` (lines 126-230). `base` is the name handed out by
`NamedTemporaryFile(delete=False)` — a file with that name exists on disk from
line 130 on. `ext` is the extension resolved from the URL (or the HEAD probe),
possibly empty; when nonempty it is appended to the *variable* `tmp_filename`
(line 153), so the download target and the cleanup target (the `finally` block
at lines 207-210) are `base ++ ext` while the file created at line 130 keeps
the name `base`. The callback POST (lines 212-227) happens iff no exception
escaped earlier, i.e. iff a result value exists; its own failure is caught and
ignored. -/
def process_file (base ext appId : List Char) (w : World) (cbOk : Bool) :
    ProcOutcome :=
  let tmpName := base ++ ext
  let result := buildResult appId ext w (checkText (dispatch ext w))
  let created : List (List Char) :=
    if ext = [] then [base] else if w.dlOpened then [base, tmpName] else [base]
  let leftovers := created.filter (fun f => f ≠ tmpName)
  ⟨result, leftovers, result.isSome, result.isSome && cbOk⟩

/-- The `__main__` block (lines 232-249): exit 1 on a wrong argument count
(`len(sys.argv) != 5`), otherwise exit by the `success` flag of the returned
result; an exception escaping `process_file` terminates the interpreter with
exit code 1. -/
def main_exit_code (argc : Nat) (base ext appId : List Char) (w : World)
    (cbOk : Bool) : Nat :=
  if argc = 5 then
    match (process_file base ext appId w cbOk).result with
    | some r => if r.success then 0 else 1
    | none => 1
  else 1

/-- `true` iff the list does not start with a whitespace character. -/
def headNoWs : List Char → Bool
  | [] => true
  | c :: _ => !isPySpace c

/-- `pat` occurs at the head of the list. -/
def startsWith : List Char → List Char → Bool
  | [], _ => true
  | _ :: _, [] => false
  | p :: ps, c :: cs => p == c && startsWith ps cs

/-- `pat` occurs contiguously somewhere in the list. -/
def containsSeq (pat : List Char) : List Char → Bool
  | [] => startsWith pat []
  | c :: cs => startsWith pat (c :: cs) || containsSeq pat cs

/-- Character set the specification allows in cleaned output: word
characters, the ASCII space, and the listed punctuation. -/
def claimAllowed (c : Char) : Bool :=
  isPyWord c || c == ' ' || c == '-' || c == '.' || c == ',' || c == ';' ||
    c == ':' || c == '(' || c == ')' || c == '[' || c == ']'

/-! ### Generic facts about `stripWs` and `collapseWs` -/

theorem headNoWs_dropWhile (l : List Char) :
    headNoWs (l.dropWhile isPySpace) = true := by
  induction l with
  | nil => rfl
  | cons c cs ih =>
    by_cases h : isPySpace c = true
    · rw [List.dropWhile_cons_of_pos h]; exact ih
    · rw [List.dropWhile_cons_of_neg h]
      simp only [headNoWs, Bool.not_eq_true', Bool.not_eq_true] at h ⊢
      exact h

theorem dropWhile_eq_self_of_headNoWs (l : List Char) (h : headNoWs l = true) :
    l.dropWhile isPySpace = l := by
  cases l with
  | nil => rfl
  | cons c cs =>
    simp only [headNoWs, Bool.not_eq_true'] at h
    exact List.dropWhile_cons_of_neg (by simp [h])

theorem headNoWs_stripWs (l : List Char) : headNoWs (stripWs l) = true := by
  unfold stripWs
  cases hwr : ((l.dropWhile isPySpace).reverse.dropWhile isPySpace).reverse with
  | nil => rfl
  | cons c cs =>
    have hhead : ((l.dropWhile isPySpace).reverse.dropWhile isPySpace).getLast? = some c := by
      rw [← List.head?_reverse, hwr]; rfl
    obtain ⟨s, hs⟩ :
        (l.dropWhile isPySpace).reverse.dropWhile isPySpace <:+ (l.dropWhile isPySpace).reverse :=
      List.dropWhile_suffix isPySpace
    have h1 : (l.dropWhile isPySpace).reverse.getLast? = some c := by
      rw [← hs, List.getLast?_append, hhead]; rfl
    have h2 : (l.dropWhile isPySpace).head? = some c := by
      rw [← List.getLast?_reverse]; exact h1
    have h3 := headNoWs_dropWhile l
    cases hdw : l.dropWhile isPySpace with
    | nil => rw [hdw] at h2; simp at h2
    | cons d ds =>
      rw [hdw] at h2 h3
      simp only [List.head?_cons, Option.some.injEq] at h2
      subst h2
      simpa [headNoWs] using h3

theorem headNoWs_reverse_stripWs (l : List Char) :
    headNoWs (stripWs l).reverse = true := by
  unfold stripWs
  rw [List.reverse_reverse]
  exact headNoWs_dropWhile _

theorem stripWs_idem (l : List Char) : stripWs (stripWs l) = stripWs l := by
  have h1 : (stripWs l).dropWhile isPySpace = stripWs l :=
    dropWhile_eq_self_of_headNoWs _ (headNoWs_stripWs l)
  have h2 : ((stripWs l).reverse).dropWhile isPySpace = (stripWs l).reverse :=
    dropWhile_eq_self_of_headNoWs _ (headNoWs_reverse_stripWs l)
  show (((stripWs l).dropWhile isPySpace).reverse.dropWhile isPySpace).reverse = stripWs l
  rw [h1, h2, List.reverse_reverse]

theorem mem_of_mem_stripWs {c : Char} {l : List Char} (h : c ∈ stripWs l) :
    c ∈ l := by
  unfold stripWs at h
  rw [List.mem_reverse] at h
  have h2 := (List.dropWhile_suffix isPySpace).subset h
  rw [List.mem_reverse] at h2
  exact (List.dropWhile_suffix isPySpace).subset h2

theorem ws_of_stripWs_eq_nil {l : List Char} (h : stripWs l = []) :
    ∀ c ∈ l, isPySpace c = true := by
  unfold stripWs at h
  rw [List.reverse_eq_nil_iff, List.dropWhile_eq_nil_iff] at h
  intro c hc
  have hsplit : c ∈ l.takeWhile isPySpace ++ l.dropWhile isPySpace := by
    rw [List.takeWhile_append_dropWhile]; exact hc
  rcases List.mem_append.mp hsplit with h1 | h1
  · exact List.mem_takeWhile_imp h1
  · exact h c (List.mem_reverse.mpr h1)

theorem stripWs_ws_append (w t : List Char) (hw : ∀ c ∈ w, isPySpace c = true) :
    stripWs (w ++ t) = stripWs t := by
  unfold stripWs
  rw [List.dropWhile_append_of_pos hw]

theorem stripWs_cons_space (l : List Char) : stripWs (' ' :: l) = stripWs l := by
  have := stripWs_ws_append [' '] l (by intro c hc; simp at hc; subst hc; rfl)
  simpa using this

/-- Adjacent characters of a collapsed string are never both whitespace. -/
def noWsPair (a b : Char) : Prop := ¬(isPySpace a = true ∧ isPySpace b = true)

theorem headNoWs_collapseGo_true (l : List Char) :
    headNoWs (collapseGo true l) = true := by
  induction l with
  | nil => rfl
  | cons c cs ih =>
    by_cases h : isPySpace c = true
    · simpa [collapseGo, h] using ih
    · simp only [Bool.not_eq_true] at h
      simp [collapseGo, h, headNoWs]

theorem space_of_mem_collapseGo :
    ∀ (l : List Char) (b : Bool) (c : Char),
      c ∈ collapseGo b l → isPySpace c = true → c = ' ' := by
  intro l
  induction l with
  | nil => intro b c h; simp [collapseGo] at h
  | cons d ds ih =>
    intro b c h hws
    by_cases hd : isPySpace d = true
    · cases b with
      | true =>
        rw [collapseGo, if_pos hd, if_pos rfl] at h
        exact ih true c h hws
      | false =>
        rw [collapseGo, if_pos hd, if_neg (by simp)] at h
        rcases List.mem_cons.mp h with h | h
        · exact h
        · exact ih true c h hws
    · rw [collapseGo, if_neg hd] at h
      rcases List.mem_cons.mp h with h | h
      · subst h; exact absurd hws hd
      · exact ih false c h hws

theorem mem_collapseGo :
    ∀ (l : List Char) (b : Bool) (c : Char),
      c ∈ collapseGo b l → c ∈ l ∨ c = ' ' := by
  intro l
  induction l with
  | nil => intro b c h; simp [collapseGo] at h
  | cons d ds ih =>
    intro b c h
    by_cases hd : isPySpace d = true
    · cases b with
      | true =>
        rw [collapseGo, if_pos hd, if_pos rfl] at h
        rcases ih true c h with h | h
        · exact Or.inl (List.mem_cons_of_mem d h)
        · exact Or.inr h
      | false =>
        rw [collapseGo, if_pos hd, if_neg (by simp)] at h
        rcases List.mem_cons.mp h with h | h
        · exact Or.inr h
        · rcases ih true c h with h | h
          · exact Or.inl (List.mem_cons_of_mem d h)
          · exact Or.inr h
    · rw [collapseGo, if_neg hd] at h
      rcases List.mem_cons.mp h with h | h
      · exact Or.inl (h ▸ List.mem_cons_self d ds)
      · rcases ih false c h with h | h
        · exact Or.inl (List.mem_cons_of_mem d h)
        · exact Or.inr h

theorem noWsPair_of_headNoWs {a : Char} {l : List Char} (h : headNoWs l = true) :
    ∀ y ∈ l.head?, noWsPair a y := by
  cases l with
  | nil => intro y hy; simp at hy
  | cons c cs =>
    intro y hy
    simp only [List.head?_cons, Option.mem_def, Option.some.injEq] at hy
    subst hy
    simp only [headNoWs, Bool.not_eq_true'] at h
    exact fun hp => by rw [h] at hp; exact absurd hp.2 (by simp)

theorem chain_collapseGo :
    ∀ (l : List Char) (b : Bool), List.Chain' noWsPair (collapseGo b l) := by
  intro l
  induction l with
  | nil => intro b; simp [collapseGo]
  | cons d ds ih =>
    intro b
    by_cases hd : isPySpace d = true
    · cases b with
      | true =>
        rw [collapseGo, if_pos hd, if_pos rfl]
        exact ih true
      | false =>
        rw [collapseGo, if_pos hd, if_neg (by simp)]
        exact List.chain'_cons'.mpr
          ⟨noWsPair_of_headNoWs (headNoWs_collapseGo_true ds), ih true⟩
    · rw [collapseGo, if_neg hd]
      refine List.chain'_cons'.mpr ⟨?_, ih false⟩
      intro y hy
      exact fun hp => absurd hp.1 hd

theorem collapseGo_eq_self (z : List Char)
    (h1 : ∀ c ∈ z, isPySpace c = true → c = ' ')
    (h2 : List.Chain' noWsPair z) : collapseGo false z = z := by
  induction z with
  | nil => rfl
  | cons c cs ih =>
    have hcs1 : ∀ d ∈ cs, isPySpace d = true → d = ' ' :=
      fun d hd => h1 d (List.mem_cons_of_mem c hd)
    have hcs2 : List.Chain' noWsPair cs := (List.chain'_cons'.mp h2).2
    by_cases hc : isPySpace c = true
    · have hceq : c = ' ' := h1 c (List.mem_cons_self c cs) hc
      subst hceq
      have hhead := (List.chain'_cons'.mp h2).1
      cases cs with
      | nil => simp [collapseGo]
      | cons d ds =>
        have hdns : isPySpace d = false := by
          have hx := hhead d (by simp)
          by_contra hdd
          simp only [Bool.not_eq_false] at hdd
          exact hx ⟨by decide, hdd⟩
        have hres := ih hcs1 hcs2
        rw [collapseGo, if_neg (by simp [hdns])] at hres
        have hds : collapseGo false ds = ds := by
          injection hres
        rw [collapseGo, if_pos (by decide), if_neg (by simp)]
        rw [collapseGo, if_neg (by simp [hdns]), hds]
    · have hres := ih hcs1 hcs2
      rw [collapseGo, if_neg hc, hres]

theorem chain_reverse_of_chain {u : List Char} (hu : List.Chain' noWsPair u) :
    List.Chain' noWsPair u.reverse := by
  rw [List.chain'_reverse]
  exact hu.imp (fun a b hab hp => hab ⟨hp.2, hp.1⟩)

theorem chain_stripWs (l : List Char) (h : List.Chain' noWsPair l) :
    List.Chain' noWsPair (stripWs l) := by
  have h1 : List.Chain' noWsPair (l.dropWhile isPySpace) :=
    h.suffix (List.dropWhile_suffix isPySpace)
  have h2 := chain_reverse_of_chain h1
  have h3 : List.Chain' noWsPair ((l.dropWhile isPySpace).reverse.dropWhile isPySpace) :=
    h2.suffix (List.dropWhile_suffix isPySpace)
  exact chain_reverse_of_chain h3

/-! ### Facts about `clean_text` -/

theorem keep_of_mem_clean_text {c : Char} {x : List Char}
    (h : c ∈ clean_text x) : keepChar c = true := by
  unfold clean_text at h
  exact (List.mem_filter.mp (mem_of_mem_stripWs h)).2

theorem clean_text_eq_strip_collapse {y : List Char}
    (hy : ∀ c ∈ y, keepChar c = true) :
    clean_text y = stripWs (collapseWs y) := by
  unfold clean_text
  congr 1
  rw [List.filter_eq_self]
  intro c hc
  rcases mem_collapseGo y false c hc with h | h
  · exact hy c h
  · subst h; decide

theorem space_of_mem_clean_text {c : Char} {x : List Char}
    (h : c ∈ clean_text x) : isPySpace c = true → c = ' ' := by
  unfold clean_text at h
  exact space_of_mem_collapseGo x false c (List.mem_filter.mp (mem_of_mem_stripWs h)).1

theorem clean_text_idem_of_keep (y : List Char)
    (hy : ∀ c ∈ y, keepChar c = true) :
    clean_text (clean_text y) = clean_text y := by
  have h1 : clean_text y = stripWs (collapseWs y) := clean_text_eq_strip_collapse hy
  have hw : ∀ c ∈ stripWs (collapseWs y), keepChar c = true := by
    intro c hc
    rcases mem_collapseGo y false c (mem_of_mem_stripWs hc) with h | h
    · exact hy c h
    · subst h; decide
  have h2 : clean_text (stripWs (collapseWs y)) =
      stripWs (collapseWs (stripWs (collapseWs y))) :=
    clean_text_eq_strip_collapse hw
  have hn1 : ∀ c ∈ stripWs (collapseWs y), isPySpace c = true → c = ' ' :=
    fun c hc => space_of_mem_collapseGo y false c (mem_of_mem_stripWs hc)
  have hn2 : List.Chain' noWsPair (stripWs (collapseWs y)) :=
    chain_stripWs _ (chain_collapseGo y false)
  have h3 : collapseWs (stripWs (collapseWs y)) = stripWs (collapseWs y) :=
    collapseGo_eq_self _ hn1 hn2
  rw [h1, h2, h3, stripWs_idem]

theorem collapseGo_true_ws_append (w t : List Char)
    (hw : ∀ c ∈ w, isPySpace c = true) :
    collapseGo true (w ++ t) = collapseGo true t := by
  induction w with
  | nil => rfl
  | cons c cs ih =>
    have hc : isPySpace c = true := hw c (List.mem_cons_self c cs)
    rw [List.cons_append, collapseGo, if_pos hc, if_pos rfl]
    exact ih (fun d hd => hw d (List.mem_cons_of_mem c hd))

theorem strip_filter_collapse_true_eq_false (t : List Char) :
    stripWs ((collapseGo true t).filter keepChar) =
      stripWs ((collapseGo false t).filter keepChar) := by
  cases t with
  | nil => rfl
  | cons d ds =>
    by_cases hd : isPySpace d = true
    · rw [collapseGo, if_pos hd, if_pos rfl, collapseGo, if_pos hd,
        if_neg (by simp), List.filter_cons_of_pos (by decide), stripWs_cons_space]
    · rw [collapseGo, if_neg hd, collapseGo, if_neg hd]

theorem clean_text_ws_append (w t : List Char)
    (hw : ∀ c ∈ w, isPySpace c = true) :
    clean_text (w ++ t) = clean_text t := by
  cases w with
  | nil => rfl
  | cons c cs =>
    have hc : isPySpace c = true := hw c (List.mem_cons_self c cs)
    unfold clean_text collapseWs
    rw [List.cons_append, collapseGo, if_pos hc, if_neg (by simp),
      collapseGo_true_ws_append cs t (fun d hd => hw d (List.mem_cons_of_mem c hd)),
      List.filter_cons_of_pos (by decide), stripWs_cons_space]
    exact strip_filter_collapse_true_eq_false t

/-! ### Facts about the extractors and the orchestrator -/

theorem isEmpty_false_of_ne_nil {l : List Char} (h : l ≠ []) :
    l.isEmpty = false := by
  rw [Bool.eq_false_iff]
  intro hc
  exact h (List.isEmpty_iff.mp hc)

theorem extract_text_from_pdf_image (b1 b2 : PdfBackendRun) (r : Bool)
    (rc : Int) (o : List Char) :
    ∃ raw, extract_text_from_pdf b1 b2 r rc o = clean_text raw := by
  simp only [extract_text_from_pdf]
  by_cases h1 : (!b1.raises && !(stripWs (accumPages b1.pages)).isEmpty) = true
  · rw [if_pos h1]; exact ⟨_, rfl⟩
  · rw [if_neg h1]
    by_cases h2 : (!b2.raises &&
        !(stripWs (accumPages b1.pages ++ accumPages b2.pages)).isEmpty) = true
    · rw [if_pos h2]; exact ⟨_, rfl⟩
    · rw [if_neg h2]
      by_cases h3 : (!r && rc == 0 && !(stripWs o).isEmpty) = true
      · rw [if_pos h3]; exact ⟨_, rfl⟩
      · rw [if_neg h3]; exact ⟨[], rfl⟩

theorem extract_text_from_docx_image
    (d : Option (List (List Char) × List (List (List (List Char))))) :
    ∃ raw, extract_text_from_docx d = clean_text raw := by
  cases d with
  | none => exact ⟨[], rfl⟩
  | some p => exact ⟨docxRaw p.1 p.2, rfl⟩

theorem extract_text_from_doc_image (a : Bool) (rc : Int) (o : List Char) :
    ∃ raw, extract_text_from_doc a rc o = clean_text raw := by
  unfold extract_text_from_doc
  split
  · exact ⟨o, rfl⟩
  · exact ⟨[], rfl⟩

theorem pdf_stop_at_1 (b1 b2 : PdfBackendRun) (r : Bool) (rc : Int)
    (o : List Char) (h1 : b1.raises = false)
    (h2 : stripWs (accumPages b1.pages) ≠ []) :
    extract_text_from_pdf b1 b2 r rc o = clean_text (accumPages b1.pages) := by
  have he := isEmpty_false_of_ne_nil h2
  simp only [extract_text_from_pdf]
  rw [if_pos (by rw [h1, he]; rfl)]

theorem pdf_stage2 (b1 b2 : PdfBackendRun) (r : Bool) (rc : Int)
    (o : List Char) (h1 : stripWs (accumPages b1.pages) = [])
    (h2 : b2.raises = false) (h3 : stripWs (accumPages b2.pages) ≠ []) :
    extract_text_from_pdf b1 b2 r rc o = clean_text (accumPages b2.pages) := by
  have hw1 : ∀ c ∈ accumPages b1.pages, isPySpace c = true :=
    ws_of_stripWs_eq_nil h1
  have h12 : stripWs (accumPages b1.pages ++ accumPages b2.pages) =
      stripWs (accumPages b2.pages) := stripWs_ws_append _ _ hw1
  have he1 : (stripWs (accumPages b1.pages)).isEmpty = true := by
    rw [h1]; rfl
  have he2 : (stripWs (accumPages b1.pages ++ accumPages b2.pages)).isEmpty = false := by
    rw [h12]; exact isEmpty_false_of_ne_nil h3
  simp only [extract_text_from_pdf]
  rw [if_neg (by rw [he1]; simp), if_pos (by rw [h2, he2]; rfl)]
  exact clean_text_ws_append _ _ hw1

theorem pdf_empty_of_all_ws (b1 b2 : PdfBackendRun) (r : Bool) (rc : Int)
    (o : List Char) (h1 : stripWs (accumPages b1.pages) = [])
    (h2 : stripWs (accumPages b2.pages) = [])
    (h3 : r = true ∨ rc ≠ 0 ∨ stripWs o = []) :
    extract_text_from_pdf b1 b2 r rc o = [] := by
  have hw1 : ∀ c ∈ accumPages b1.pages, isPySpace c = true :=
    ws_of_stripWs_eq_nil h1
  have h12 : stripWs (accumPages b1.pages ++ accumPages b2.pages) = [] := by
    rw [stripWs_ws_append _ _ hw1]; exact h2
  have he1 : (stripWs (accumPages b1.pages)).isEmpty = true := by rw [h1]; rfl
  have he12 : (stripWs (accumPages b1.pages ++ accumPages b2.pages)).isEmpty = true := by
    rw [h12]; rfl
  simp only [extract_text_from_pdf]
  rw [if_neg (by rw [he1]; simp), if_neg (by rw [he12]; simp)]
  rcases h3 with h3 | h3 | h3
  · rw [if_neg (by rw [h3]; simp)]
  · rw [if_neg (by rw [beq_eq_false_iff_ne.mpr h3]; simp)]
  · have ho : (stripWs o).isEmpty = true := by rw [h3]; rfl
    rw [if_neg (by rw [ho]; simp)]

theorem checkText_ok {e : Except (List Char) (List Char)} {t : List Char}
    (h : checkText e = Except.ok t) :
    e = Except.ok t ∧ (stripWs t).isEmpty = false := by
  cases e with
  | error m => simp [checkText] at h
  | ok u =>
    by_cases hu : (stripWs u).isEmpty = true
    · rw [checkText, if_pos hu] at h
      simp at h
    · rw [Bool.not_eq_true] at hu
      rw [checkText, if_neg (by rw [hu]; simp)] at h
      injection h with h
      subst h
      exact ⟨rfl, hu⟩

theorem buildResult_isSome_of_tsFailure (appId ext : List Char) (w : World)
    (ts : List Char) (h : w.tsFailure = some ts)
    (e : Except (List Char) (List Char)) :
    (buildResult appId ext w e).isSome = true := by
  cases e with
  | ok t =>
    cases hts : w.tsSuccess with
    | some ts2 => simp [buildResult, hts]
    | none => simp [buildResult, hts, h]
  | error m => simp [buildResult, h]

theorem buildResult_error (appId ext : List Char) (w : World)
    (ts m : List Char) (h : w.tsFailure = some ts) :
    buildResult appId ext w (Except.error m) =
      some ⟨false, appId, some m, none, none, none, ts⟩ := by
  simp [buildResult, h]

theorem buildResult_success_inv (appId ext : List Char) (w : World)
    (e : Except (List Char) (List Char)) (r : ProcResult)
    (h : buildResult appId ext w e = some r) (hs : r.success = true) :
    ∃ t ts, e = Except.ok t ∧ w.tsSuccess = some ts ∧
      r = ⟨true, appId, none, some t, some ext, some t.length, ts⟩ := by
  cases e with
  | ok t =>
    cases hts : w.tsSuccess with
    | some ts =>
      rw [buildResult, hts] at h
      injection h with h
      exact ⟨t, ts, rfl, rfl, h.symm⟩
    | none =>
      rw [buildResult, hts] at h
      cases htf : w.tsFailure with
      | some ts2 =>
        rw [htf] at h
        injection h with h
        rw [← h] at hs
        simp at hs
      | none => rw [htf] at h; simp at h
  | error m =>
    rw [buildResult] at h
    cases htf : w.tsFailure with
    | some ts2 =>
      rw [htf] at h
      injection h with h
      rw [← h] at hs
      simp at hs
    | none => rw [htf] at h; simp at h

theorem dispatch_ok_image {ext : List Char} {w : World} {t : List Char}
    (h : dispatch ext w = Except.ok t) : ∃ raw, t = clean_text raw := by
  unfold dispatch at h
  split at h
  · simp at h
  · split at h
    · obtain ⟨raw, hr⟩ :=
        extract_text_from_pdf_image w.b1 w.b2 w.b3raises w.b3rc w.b3out
      injection h with h
      exact ⟨raw, by rw [← h, hr]⟩
    · split at h
      · obtain ⟨raw, hr⟩ := extract_text_from_docx_image w.docx
        injection h with h
        exact ⟨raw, by rw [← h, hr]⟩
      · split at h
        · obtain ⟨raw, hr⟩ :=
            extract_text_from_doc_image w.docRaises w.docRc w.docOut
          injection h with h
          exact ⟨raw, by rw [← h, hr]⟩
        · simp at h

theorem process_file_result (base ext appId : List Char) (w : World)
    (cbOk : Bool) :
    (process_file base ext appId w cbOk).result =
      buildResult appId ext w (checkText (dispatch ext w)) := rfl

theorem process_file_callbackAttempted (base ext appId : List Char)
    (w : World) (cbOk : Bool) :
    (process_file base ext appId w cbOk).callbackAttempted =
      (buildResult appId ext w (checkText (dispatch ext w))).isSome := rfl

theorem process_file_leftovers (base ext appId : List Char) (w : World)
    (cbOk : Bool) :
    (process_file base ext appId w cbOk).leftovers =
      (if ext = [] then [base]
        else if w.dlOpened then [base, base ++ ext] else [base]).filter
        (fun f => f ≠ base ++ ext) := rfl

/-! ### Concrete collaborator behaviours used as test vectors -/

/-- The download fails and both timestamp lookups raise. -/
def worldDlFailTsFail : World :=
  ⟨false, false, ⟨[], false⟩, ⟨[], false⟩, false, 0, [], none, false, 0, [],
    none, [], none⟩

/-- The download succeeds, all three PDF backends yield nothing, and the
failure-branch timestamp lookup returns `"TF"`. -/
def worldPdfAllEmpty : World :=
  ⟨true, true, ⟨[], false⟩, ⟨[], false⟩, false, 0, [], none, false, 0, [],
    some "TS".toList, [], some "TF".toList⟩

/-- The download succeeds and the DOCX parser yields one paragraph `"Hi"`. -/
def worldDocxHi : World :=
  ⟨true, true, ⟨[], false⟩, ⟨[], false⟩, false, 0, [],
    some ⟨["Hi".toList], []⟩, false, 0, [],
    some "TS".toList, [], some "TF".toList⟩

/-- The DOCX document of the specification's worked example: two paragraphs
and one 1x2 table. -/
def docxExample : Option (List (List Char) × List (List (List (List Char)))) :=
  some ⟨["Name: Jane Doe".toList, "Skills: C++, networking".toList],
        [[["Email".toList, "j@x.com".toList]]]⟩

/-! ### The claims -/

/-- C1: the claim states that after `process_file` completes no temporary
file created by the invocation still exists. The code violates it: whenever a
file extension is resolved (here `".pdf"`), the name of the file created by
`NamedTemporaryFile(delete=False)` at line 130 is lost when line 153 appends
the extension to the `tmp_filename` variable, so the `finally` block removes
only `base ++ ext` and the file at `base` survives every outcome path. -/
theorem c1_original_tempfile_survives (base appId : List Char) (w : World)
    (cbOk : Bool) :
    base ∈ (process_file base ".pdf".toList appId w cbOk).leftovers := by
  rw [process_file_leftovers]
  have hne : ¬(base = base ++ ".pdf".toList) := by
    intro h
    have hlen := congrArg List.length h
    rw [List.length_append] at hlen
    simp at hlen
  rw [if_neg (by decide)]
  cases hdo : w.dlOpened
  · rw [if_neg (by simp)]
    simp [List.mem_filter, hne]
  · rw [if_pos rfl]
    simp [List.mem_filter, hne]

/-- C2 counterexample: backend 1 raises after extracting the page text `"A"`,
backend 2 succeeds with `"B"`; the extractor returns `"A B"` (the leftover
accumulator text is prepended), not the `"B"` that running backend 2 alone
produces. -/
theorem c2_counterexample :
    extract_text_from_pdf ⟨[some "A".toList], true⟩ ⟨[some "B".toList], false⟩
        false 0 [] = "A B".toList ∧
    extract_text_from_pdf ⟨[], false⟩ ⟨[some "B".toList], false⟩
        false 0 [] = "B".toList ∧
    "A B".toList ≠ "B".toList :=
  ⟨rfl, rfl, by decide⟩

/-- C2 (amended): if backend 1 fails having accumulated only empty or
whitespace output and backend 2 succeeds, the result equals running backend 2
alone, and backend 3 never runs (the result is independent of the behaviour
of the command-line backend). When backend 1 raises after accumulating
non-whitespace text, that text is prepended instead. -/
theorem c2_amended_backend2_alone (b1 b2 : PdfBackendRun) (r rP : Bool)
    (rc rcP : Int) (o oP : List Char)
    (h1 : stripWs (accumPages b1.pages) = [])
    (h2 : b2.raises = false)
    (h3 : stripWs (accumPages b2.pages) ≠ []) :
    extract_text_from_pdf b1 b2 r rc o = clean_text (accumPages b2.pages) ∧
    extract_text_from_pdf b1 b2 r rc o =
      extract_text_from_pdf ⟨[], false⟩ b2 rP rcP oP := by
  have hmain := pdf_stage2 b1 b2 r rc o h1 h2 h3
  have halone := pdf_stage2 ⟨[], false⟩ b2 rP rcP oP rfl h2 h3
  exact ⟨hmain, by rw [hmain, halone]⟩

/-- Witness for the amended C2 theorem at a concrete input: backend 1 raises
after a whitespace-only page, backend 2 yields `"Hi"`. -/
theorem c2_witness :
    stripWs (accumPages [some "\t".toList]) = [] ∧
    (⟨[some "Hi".toList], false⟩ : PdfBackendRun).raises = false ∧
    stripWs (accumPages [some "Hi".toList]) ≠ [] ∧
    extract_text_from_pdf ⟨[some "\t".toList], true⟩ ⟨[some "Hi".toList], false⟩
        false 0 [] = clean_text (accumPages [some "Hi".toList]) :=
  ⟨by decide, rfl, by decide,
    (c2_amended_backend2_alone ⟨[some "\t".toList], true⟩
        ⟨[some "Hi".toList], false⟩ false false 0 0 [] []
        (by decide) rfl (by decide)).1⟩

/-- C3 counterexample: on the failure path of a failed download where the
failure-branch timestamp lookup raises, the exception escapes before the
callback POST, so the Reporting step is never attempted. -/
theorem c3_counterexample :
    (process_file "/tmp/t".toList ".pdf".toList "app".toList
        worldDlFailTsFail true).callbackAttempted = false := rfl

/-- C3 (amended): every path (in particular every failure path) on which the
failure-branch timestamp lookup would succeed still attempts the callback; if
that lookup raises, the process ends without attempting it. -/
theorem c3_amended_callback_attempted (base ext appId : List Char) (w : World)
    (cbOk : Bool) (ts : List Char) (h : w.tsFailure = some ts) :
    (process_file base ext appId w cbOk).callbackAttempted = true := by
  rw [process_file_callbackAttempted]
  exact buildResult_isSome_of_tsFailure appId ext w ts h _

/-- Witness for the amended C3 theorem at a concrete input. -/
theorem c3_witness :
    worldPdfAllEmpty.tsFailure = some "TF".toList ∧
    (process_file "/tmp/t".toList ".pdf".toList "app".toList
        worldPdfAllEmpty true).callbackAttempted = true :=
  ⟨rfl, c3_amended_callback_attempted "/tmp/t".toList ".pdf".toList
    "app".toList worldPdfAllEmpty true "TF".toList rfl⟩

/-- C4 counterexample: `clean_text` is not idempotent. On `"a ! b"` the
whitespace pass leaves single spaces, then removing `'!'` merges the two
spaces around it, giving `"a  b"`; a second application collapses them to
`"a b"`. -/
theorem c4_counterexample :
    clean_text (clean_text "a ! b".toList) ≠ clean_text "a ! b".toList := by
  decide

/-- C4 (amended): applying `clean_text` twice reaches a fixed point — a third
application changes nothing — although a single application need not be a
fixed point. -/
theorem c4_amended_clean_twice_idem (x : List Char) :
    clean_text (clean_text (clean_text x)) = clean_text (clean_text x) :=
  clean_text_idem_of_keep (clean_text x) (fun _ hc => keep_of_mem_clean_text hc)

/-- C5 counterexample: backend 1 completes with the single page `"!"` — its
cleaned text is empty, yet the extractor stops there (the stop test uses
`text.strip()`, not the cleaned text) and returns the empty string; backend 2,
whose cleaned text `"Hello"` is non-empty, is never tried, contradicting
"stops at the first backend that yields non-empty cleaned text". -/
theorem c5_counterexample :
    extract_text_from_pdf ⟨[some "!".toList], false⟩
        ⟨[some "Hello".toList], false⟩ false 0 [] = [] ∧
    clean_text (accumPages [some "Hello".toList]) = "Hello".toList ∧
    "Hello".toList ≠ ([] : List Char) :=
  ⟨rfl, rfl, by decide⟩

/-- C5 (amended): the backends run in strict order and the extractor stops at
the first stage whose run did not raise and after which the accumulated raw
text is non-whitespace, returning the cleaned accumulated text (which may
still be empty after character filtering); in particular when backend 1
completes with non-whitespace output the later backends never run, and when
all backends yield only empty or whitespace output the result is the empty
string. -/
theorem c5_amended_fallback_chain :
    (∀ (b1 b2 : PdfBackendRun) (r : Bool) (rc : Int) (o : List Char),
      b1.raises = false → stripWs (accumPages b1.pages) ≠ [] →
      extract_text_from_pdf b1 b2 r rc o = clean_text (accumPages b1.pages)) ∧
    (∀ (b1 b2 : PdfBackendRun) (r : Bool) (rc : Int) (o : List Char),
      stripWs (accumPages b1.pages) = [] →
      stripWs (accumPages b2.pages) = [] →
      (r = true ∨ rc ≠ 0 ∨ stripWs o = []) →
      extract_text_from_pdf b1 b2 r rc o = []) :=
  ⟨fun b1 b2 r rc o h1 h2 => pdf_stop_at_1 b1 b2 r rc o h1 h2,
   fun b1 b2 r rc o h1 h2 h3 => pdf_empty_of_all_ws b1 b2 r rc o h1 h2 h3⟩

/-- Witness for the amended C5 theorem at concrete inputs: one instance of
the first-success rule and one all-empty instance. -/
theorem c5_witness :
    ((⟨[some "Hi".toList], false⟩ : PdfBackendRun).raises = false ∧
      stripWs (accumPages [some "Hi".toList]) ≠ [] ∧
      extract_text_from_pdf ⟨[some "Hi".toList], false⟩ ⟨[], false⟩ false 0 []
        = clean_text (accumPages [some "Hi".toList])) ∧
    (stripWs (accumPages ([] : List (Option (List Char)))) = [] ∧
      extract_text_from_pdf ⟨[], false⟩ ⟨[], false⟩ true 0 [] = []) :=
  ⟨⟨rfl, by decide,
      c5_amended_fallback_chain.1 ⟨[some "Hi".toList], false⟩ ⟨[], false⟩
        false 0 [] rfl (by decide)⟩,
   ⟨rfl,
      c5_amended_fallback_chain.2 ⟨[], false⟩ ⟨[], false⟩ true 0 []
        rfl rfl (Or.inl rfl)⟩⟩

/-- C6: every result record with `success = true` carries non-empty extracted
text that is the cleaned output of an extractor (an image of `clean_text`),
and its `text_length` field equals the length of that text. -/
theorem c6_success_invariant (base ext appId : List Char) (w : World)
    (cbOk : Bool) (r : ProcResult)
    (hres : (process_file base ext appId w cbOk).result = some r)
    (hs : r.success = true) :
    ∃ t raw, r.extracted_text = some t ∧ t ≠ [] ∧
      r.text_length = some t.length ∧ t = clean_text raw := by
  rw [process_file_result] at hres
  obtain ⟨t, ts, hok, hts, hr⟩ := buildResult_success_inv appId ext w _ r hres hs
  obtain ⟨hdis, hne⟩ := checkText_ok hok
  obtain ⟨raw, hraw⟩ := dispatch_ok_image hdis
  refine ⟨t, raw, by rw [hr], ?_, by rw [hr], hraw⟩
  intro hnil
  subst hnil
  exact absurd hne (by decide)

/-- Witness for C6 at a concrete input: a successfully processed DOCX with
one paragraph `"Hi"`. -/
theorem c6_witness :
    (process_file "/tmp/t".toList ".docx".toList "app".toList worldDocxHi
        true).result =
      some ⟨true, "app".toList, none, some "Hi".toList, some ".docx".toList,
        some 2, "TS".toList⟩ ∧
    (∃ t raw,
      (⟨true, "app".toList, none, some "Hi".toList, some ".docx".toList,
        some 2, "TS".toList⟩ : ProcResult).extracted_text = some t ∧
      t ≠ [] ∧
      (⟨true, "app".toList, none, some "Hi".toList, some ".docx".toList,
        some 2, "TS".toList⟩ : ProcResult).text_length = some t.length ∧
      t = clean_text raw) :=
  ⟨rfl, c6_success_invariant "/tmp/t".toList ".docx".toList "app".toList
    worldDocxHi true _ rfl rfl⟩

/-- C7 counterexample: with all three backends empty the failure record's
error string is `"No text could be extracted from the file"`, not the string
`"No text could be extracted."` quoted by the claim. -/
theorem c7_counterexample :
    (process_file "/tmp/t".toList ".pdf".toList "app".toList worldPdfAllEmpty
        true).result =
      some ⟨false, "app".toList, some noTextErrMsg, none, none, none,
        "TF".toList⟩ ∧
    noTextErrMsg ≠ "No text could be extracted.".toList :=
  ⟨rfl, by decide⟩

/-- C7 (amended): for a PDF whose download succeeded, on which all three
backends yield only empty or whitespace output, and whose failure-branch
timestamp lookup succeeds, the result has `success = false` and the error
`"No text could be extracted from the file"`. -/
theorem c7_amended_all_empty_failure (base appId : List Char) (w : World)
    (cbOk : Bool) (ts : List Char) (hdl : w.dlOk = true)
    (h1 : stripWs (accumPages w.b1.pages) = [])
    (h2 : stripWs (accumPages w.b2.pages) = [])
    (h3 : w.b3raises = true ∨ w.b3rc ≠ 0 ∨ stripWs w.b3out = [])
    (htf : w.tsFailure = some ts) :
    (process_file base ".pdf".toList appId w cbOk).result =
      some ⟨false, appId, some noTextErrMsg, none, none, none, ts⟩ := by
  have hex : extract_text_from_pdf w.b1 w.b2 w.b3raises w.b3rc w.b3out = [] :=
    pdf_empty_of_all_ws _ _ _ _ _ h1 h2 h3
  rw [process_file_result]
  have hdis : dispatch ".pdf".toList w = Except.ok ([] : List Char) := by
    unfold dispatch
    rw [if_neg (by rw [hdl]; simp), if_pos rfl, hex]
  rw [hdis]
  have hchk : checkText (Except.ok ([] : List Char)) =
      Except.error noTextErrMsg := rfl
  rw [hchk]
  exact buildResult_error appId ".pdf".toList w ts noTextErrMsg htf

/-- Witness for the amended C7 theorem at a concrete input. -/
theorem c7_witness :
    worldPdfAllEmpty.dlOk = true ∧
    stripWs (accumPages worldPdfAllEmpty.b1.pages) = [] ∧
    (process_file "/tmp/t".toList ".pdf".toList "app".toList worldPdfAllEmpty
        true).result =
      some ⟨false, "app".toList, some noTextErrMsg, none, none, none,
        "TF".toList⟩ :=
  ⟨rfl, rfl,
    c7_amended_all_empty_failure "/tmp/t".toList "app".toList worldPdfAllEmpty
      true "TF".toList rfl rfl rfl (Or.inr (Or.inr rfl)) rfl⟩

/-- C8 counterexample: on the specification's DOCX example the cleaned text
does not contain the fragments `"Skills: C++, networking"` and `"j@x.com"`,
because `clean_text` removes the characters `'+'` and `'@'` (they are outside
the whitelist). -/
theorem c8_counterexample :
    containsSeq "Skills: C++, networking".toList
        (extract_text_from_docx docxExample) = false ∧
    containsSeq "j@x.com".toList (extract_text_from_docx docxExample) = false := by
  exact ⟨by decide, by decide⟩

/-- C8 (amended): on the example DOCX the cleaned extracted text equals
`"Name: Jane Doe Skills: C, networking Email jx.com"`: the four fragments
appear in paragraph-then-table order with the table cells space-joined, but
with the non-whitelist characters `'+'` and `'@'` removed. -/
theorem c8_amended_docx_example :
    extract_text_from_docx docxExample =
      "Name: Jane Doe Skills: C, networking Email jx.com".toList ∧
    containsSeq "Name: Jane Doe".toList
        (extract_text_from_docx docxExample) = true ∧
    containsSeq "Skills: C, networking".toList
        (extract_text_from_docx docxExample) = true ∧
    containsSeq "Email jx.com".toList
        (extract_text_from_docx docxExample) = true :=
  ⟨rfl, by decide, by decide, by decide⟩

/-- C9: the process exits 0 iff the computed result exists and its `success`
flag is true (with the right argument count); a wrong argument count exits 1;
the callback POST's success or failure changes neither the result nor the
exit code; and the exit code is always 0 or 1. -/
theorem c9_exit_codes (argc : Nat) (base ext appId : List Char) (w : World)
    (cb cbP : Bool) :
    ((main_exit_code argc base ext appId w cb = 0) ↔
      (argc = 5 ∧ ∃ r, (process_file base ext appId w cb).result = some r ∧
        r.success = true)) ∧
    (argc ≠ 5 → main_exit_code argc base ext appId w cb = 1) ∧
    (process_file base ext appId w cb).result =
      (process_file base ext appId w cbP).result ∧
    main_exit_code argc base ext appId w cb =
      main_exit_code argc base ext appId w cbP ∧
    (main_exit_code argc base ext appId w cb = 0 ∨
      main_exit_code argc base ext appId w cb = 1) := by
  refine ⟨?_, ?_, rfl, rfl, ?_⟩
  · by_cases ha : argc = 5
    · subst ha
      unfold main_exit_code
      rw [if_pos rfl]
      cases hres : (process_file base ext appId w cb).result with
      | none => simp
      | some r =>
        cases hrs : r.success with
        | false => simp [hrs]
        | true => simp [hrs]
    · unfold main_exit_code
      rw [if_neg ha]
      simp [ha]
  · intro h
    unfold main_exit_code
    rw [if_neg h]
  · unfold main_exit_code
    by_cases ha : argc = 5
    · rw [if_pos ha]
      cases (process_file base ext appId w cb).result with
      | none => exact Or.inr rfl
      | some r =>
        cases hrs : r.success with
        | false => simp [hrs]
        | true => simp [hrs]
    · rw [if_neg ha]; exact Or.inr rfl

/-- Witness for C9 at a concrete input, discharging the wrong-argument-count
hypothesis. -/
theorem c9_witness :
    (3 ≠ 5) ∧ main_exit_code 3 [] [] [] worldDlFailTsFail true = 1 :=
  ⟨by decide,
    (c9_exit_codes 3 [] [] [] worldDlFailTsFail true true).2.1 (by decide)⟩

/-- C10: every output of `clean_text` consists only of word characters, the
ASCII space, and the whitelist punctuation (the only whitespace it can
contain is the ASCII space), and it has no leading or trailing whitespace;
moreover every extractor's return value is an image of `clean_text` (the
empty string is `clean_text` of the empty string), so every extractor output
satisfies the same predicate. -/
theorem c10_clean_output_invariant :
    (∀ x : List Char,
      (clean_text x).all claimAllowed = true ∧
      headNoWs (clean_text x) = true ∧
      headNoWs (clean_text x).reverse = true) ∧
    (∀ (b1 b2 : PdfBackendRun) (r : Bool) (rc : Int) (o : List Char),
      ∃ raw, extract_text_from_pdf b1 b2 r rc o = clean_text raw) ∧
    (∀ d, ∃ raw, extract_text_from_docx d = clean_text raw) ∧
    (∀ (a : Bool) (rc : Int) (o : List Char),
      ∃ raw, extract_text_from_doc a rc o = clean_text raw) := by
  refine ⟨?_, extract_text_from_pdf_image, extract_text_from_docx_image,
    extract_text_from_doc_image⟩
  intro x
  refine ⟨?_, headNoWs_stripWs ((collapseWs x).filter keepChar),
    headNoWs_reverse_stripWs ((collapseWs x).filter keepChar)⟩
  rw [List.all_eq_true]
  intro c hc
  have hk := keep_of_mem_clean_text hc
  by_cases hws : isPySpace c = true
  · have hsp := space_of_mem_clean_text hc hws
    subst hsp
    decide
  · rw [Bool.not_eq_true] at hws
    unfold keepChar at hk
    unfold claimAllowed
    rw [hws] at hk
    simp only [Bool.false_or, Bool.or_eq_true, beq_iff_eq] at hk ⊢
    tauto
